import Mathlib

/-!
Shallow embedding of the oha HTTP load generator (src/src/main.rs) and of
the parts of its core (client, monitor, printer modules) that the spec
describes. Pure configuration logic is translated directly from main.rs;
the worker-pool / pacing / summary components, whose source files are not
part of this snapshot, are modelled from the specification text.
-/

namespace Oha

/-! ## HTTP version parsing (main.rs lines 205-216) -/

/-- The HTTP protocol versions the code can pin (http::Version values). -/
inductive HttpVersion
  | http09
  | http10
  | http11
  | http2
  | http3
deriving DecidableEq, Repr

/-- Embedding of the match on `http_version.as_str()` in main.rs lines
206-213: the recognised strings and their mapping, everything else an
"Unknown HTTP version" error. -/
def parseHttpVersion (s : String) : Except String HttpVersion :=
  if s = "0.9" then .ok .http09
  else if s = "1.0" then .ok .http10
  else if s = "1.1" then .ok .http11
  else if s = "2.0" ∨ s = "2" then .ok .http2
  else if s = "3.0" ∨ s = "3" then .ok .http3
  else .error "Unknown HTTP version"

/-- The strings accepted by the `--http-version` option. -/
def acceptedVersionStrings : List String :=
  ["0.9", "1.0", "1.1", "2", "2.0", "3", "3.0"]

/-! ## String splitting as Rust `str::splitn(2, sep)` (main.rs 136, 162) -/

/-- Splits a character list at the first occurrence of the (non-empty)
separator, or returns `none` when the separator does not occur. -/
def splitFirst (sep : List Char) : List Char → Option (List Char × List Char)
  | [] => none
  | c :: cs =>
    if sep.isPrefixOf (c :: cs) then some ([], (c :: cs).drop sep.length)
    else
      match splitFirst sep cs with
      | some (pre2, post2) => some (c :: pre2, post2)
      | none => none

/-- Rust `s.splitn(2, sep)` for a non-empty separator: at most one split,
at the first occurrence of `sep`; the list has length 2 iff `sep` occurs
in `s`. -/
def splitn2 (sep s : String) : List String :=
  match splitFirst sep.data s.data with
  | some (pre2, post2) => [String.mk pre2, String.mk post2]
  | none => [s]

/-- Embedding of the per-`-H` argument check in main.rs lines 136-137:
`splitn(2, ": ")` followed by `ensure!(header.len() == 2)`. Name/value
byte validation by the http crate is further downstream and not part of
the shape check embedded here. -/
def parseHeaderArg (s : String) : Except String (String × String) :=
  match splitn2 ": " s with
  | [n, v] => .ok (n, v)
  | _ => .error "Parse header"

/-- main.rs lines 132-144: every `-H` argument is parsed and the
collection into `anyhow::Result<Vec<_>>` short-circuits on the first
failure. -/
def parseHeaders (ss : List String) : Except String (List (String × String)) :=
  match ss with
  | [] => .ok []
  | s :: rest => do
    let v ← parseHeaderArg s
    let vs ← parseHeaders rest
    return v :: vs

/-- Embedding of the `-a` basic-auth check in main.rs lines 162-163:
`splitn(2, ':')` followed by `ensure!(u_p.len() == 2)`. -/
def parseAuthStr (s : String) : Except String (String × String) :=
  match splitn2 ":" s with
  | [u, p] => .ok (u, p)
  | _ => .error "Parse auth"

/-- main.rs lines 161-186: the auth header is only built when `-a` was
given. -/
def parseAuth (a : Option String) : Except String (Option (String × String)) :=
  match a with
  | none => .ok none
  | some s => (parseAuthStr s).map some

/-- main.rs lines 205-216: the version string is only parsed when
`--http-version` was given. -/
def parseVersionOpt (v : Option String) : Except String (Option HttpVersion) :=
  match v with
  | none => .ok none
  | some s => (parseHttpVersion s).map some

/-! ## Request-body selection (main.rs lines 195-203) -/

/-- Byte sequences, as lists of byte values. -/
abbrev ByteSeq := List Nat

/-- The UTF-8 bytes of a string (Rust `String::into_bytes`). -/
def strBytes (s : String) : ByteSeq :=
  s.toUTF8.toList.map (fun b => b.toNat)

/-- Embedding of the `match (opts.body_string, opts.body_path)` in
main.rs lines 195-203. `fileContents` stands for reading the file at a
path to the end; the returned Bool records whether the file was opened
(the second arm is the only one that touches the filesystem). -/
def selectBody (bodyString : Option String) (bodyPath : Option String)
    (fileContents : String → ByteSeq) : Option ByteSeq × Bool :=
  match bodyString, bodyPath with
  | some b, _ => (some (strBytes b), false)
  | none, some p => (some (fileContents p), true)
  | none, none => (none, false)

/-! ## Stop condition and work-function dispatch (main.rs lines 300-325) -/

/-- Which stop condition governs the run (spec section 3). Instants are
modelled as natural-number ticks. -/
inductive StopCond
  | count (n : Nat)
  | deadline (t : Nat)
deriving DecidableEq, Repr

/-- The four client entry points main.rs can invoke. -/
inductive WorkFn
  | work
  | workWithQps
  | workUntil
  | workUntilWithQps
deriving DecidableEq, Repr

/-- The dispatch decision: which work function runs, under which stop
condition, with which QPS limit. -/
structure Dispatch where
  fn : WorkFn
  stop : StopCond
  qps : Option Nat
deriving DecidableEq, Repr

/-- Embedding of the if/else chain in main.rs lines 300-325: a supplied
duration selects the deadline-governed functions with deadline
`start + duration` (n_requests unused); otherwise the count-governed
functions with budget `n_requests`; a supplied QPS selects the
rate-limited variant of either. -/
def chooseWork (start : Nat) (duration : Option Nat) (qps : Option Nat)
    (nRequests : Nat) : Dispatch :=
  match duration with
  | some d =>
    match qps with
    | some q => ⟨.workUntilWithQps, .deadline (start + d), some q⟩
    | none => ⟨.workUntil, .deadline (start + d), none⟩
  | none =>
    match qps with
    | some q => ⟨.workWithQps, .count nRequests, some q⟩
    | none => ⟨.work, .count nRequests, none⟩

/-! ## Outcomes (spec section 3, data model) -/

/-- Classification of a per-request failure (spec sections 4.1 and 7). -/
inductive FailKind
  | dns
  | connect
  | tls
  | timedOut
  | malformed
deriving DecidableEq, Repr

/-- The result carried by an Outcome: either success with status and byte
length, or a classified failure. -/
inductive ReqResult
  | success (status : Nat) (len : Nat)
  | failure (k : FailKind)
deriving DecidableEq, Repr

/-- Modelled from the spec: one Outcome per attempted request, with its
overall duration and its result (spec section 3, "Outcome"). Sub-phase
durations are omitted; no claim mentions them. -/
structure Outcome where
  duration : Nat
  res : ReqResult
deriving DecidableEq, Repr

/-- Whether an outcome is a success. -/
def Outcome.isSuccess (o : Outcome) : Bool :=
  match o.res with
  | .success _ _ => true
  | .failure _ => false

/-! ## Count-mode worker pool (spec sections 4.3, 4.4; client::work) -/

/-- Modelled from the spec: the shared state of a Count-governed run
(`client::work` is not in this snapshot). An atomically decremented
remaining-budget counter initialised to N, plus the number of outcomes
emitted so far (spec section 4.3, "Count mode"). -/
structure CountState where
  remaining : Nat
  emitted : Nat
deriving DecidableEq, Repr

/-- Modelled from the spec: one worker claim on the budget counter. A
worker claims one unit before dispatching and stops if the counter is
already zero; a successful claim dispatches exactly one request which
publishes exactly one outcome (spec sections 3, 4.3, 4.4). The Bool
records whether the claim succeeded. -/
def claimUnit (s : CountState) : CountState × Bool :=
  if 0 < s.remaining then (⟨s.remaining - 1, s.emitted + 1⟩, true)
  else (s, false)

/-- Modelled from the spec: a run as an interleaving of `k` claim
attempts by the workers (the order among workers is irrelevant to the
counter). -/
def runCount (k : Nat) (s : CountState) : CountState :=
  match k with
  | 0 => s
  | k + 1 => runCount k (claimUnit s).1

/-- The initial state of a Count-governed run with budget `n`. -/
def initCount (n : Nat) : CountState := ⟨n, 0⟩

/-! ## Deadline-mode worker pool (spec sections 4.3, 4.4; client::work_until) -/

/-- Modelled from the spec: the deadline admission test of
`client::work_until` (not in this snapshot): a worker may dispatch iff
current time < deadline (spec section 4.3, "Deadline mode"). -/
def mayDispatch (now deadline : Nat) : Bool := now < deadline

/-- An attempted request: the instant a worker is ready to dispatch it
and the duration it would take. -/
structure Attempt where
  at_ : Nat
  dur : Nat
deriving DecidableEq, Repr

/-- The instant an admitted request finishes. -/
def finishAt (a : Attempt) : Nat := a.at_ + a.dur

/-- Modelled from the spec: the requests actually dispatched in a
Deadline-governed run are exactly the attempts admitted by the deadline
test; attempts at or after the deadline are refused and the worker
terminates (spec section 4.3). -/
def dispatched (deadline : Nat) (attempts : List Attempt) : List Attempt :=
  attempts.filter (fun a => mayDispatch a.at_ deadline)

/-- Modelled from the spec: the run ends once the deadline has passed and
every in-flight request has finished (spec sections 4.3, 4.4: in-flight
requests started before the deadline are allowed to finish). -/
def runEndTime (deadline : Nat) (attempts : List Attempt) : Nat :=
  (dispatched deadline attempts).foldr (fun a acc => max (finishAt a) acc) deadline

/-! ## Fixed-rate pacing (spec section 4.2; client::work_with_qps) -/

/-- Modelled from the spec: the shared pacing schedule of a fixed-rate
run (`client::work_with_qps` / `work_until_with_qps` are not in this
snapshot): eligible-dispatch instants spaced one period (1/R) apart from
run start, with an index of the next unclaimed slot (spec sections 3 and
4.2). -/
structure Pacing where
  start : Nat
  period : Nat
  next : Nat
deriving DecidableEq, Repr

/-- The next eligible dispatch instant of the shared schedule. -/
def nextEligible (p : Pacing) : Nat := p.start + p.next * p.period

/-- Modelled from the spec: a worker's atomic claim of the next unclaimed
slot: it receives that slot's instant and the schedule advances by one
slot (spec section 4.2). -/
def claimSlot (p : Pacing) : Nat × Pacing :=
  (nextEligible p, ⟨p.start, p.period, p.next + 1⟩)

/-- Modelled from the spec: the instants handed out by `k` consecutive
claims on the shared schedule (concurrent claims are serialised by the
atomic operation, so any interleaving is some sequence of claims). -/
def claimSeq (p : Pacing) (k : Nat) : List Nat :=
  match k with
  | 0 => []
  | k + 1 => (claimSlot p).1 :: claimSeq (claimSlot p).2 k

/-! ## Connection executor (spec section 4.1; client::Client) -/

/-- Modelled from the spec: what the network does for one request
attempt — completes with a status and length, or fails in a classified
way (DNS, connect, TLS, timeout, malformed response). -/
inductive NetBehavior
  | ok (status : Nat) (len : Nat)
  | fail (k : FailKind)
deriving DecidableEq, Repr

/-- Modelled from the spec: the connection executor performs one
request/response cycle and always returns an Outcome; any failure yields
a classified Failure outcome, never a fatal error (spec section 4.1). -/
def execute (dur : Nat) (b : NetBehavior) : Outcome :=
  match b with
  | .ok s l => ⟨dur, .success s l⟩
  | .fail k => ⟨dur, .failure k⟩

/-- Modelled from the spec: a worker's sequence of attempts, each
executed once and published once to the outcome channel — no retry, no
abort (spec sections 4.1, 4.4, 7). -/
def workerRun (attempts : List (Nat × NetBehavior)) : List Outcome :=
  attempts.map (fun a => execute a.1 a.2)

/-! ## Data collector and interrupt handling (main.rs lines 222-255) -/

/-- One event observed by the collector's select loop in main.rs lines
236-249: a received report, the channel closing (all senders dropped
because the worker pool finished), or the ctrl-c signal. -/
inductive Event
  | report (o : Outcome)
  | closed
  | ctrlc
deriving DecidableEq, Repr

/-- How the collector loop ends: normal completion returning every
collected outcome, or an immediate process exit that first prints a
summary over the outcomes collected so far (main.rs lines 244-248:
`print_summary(..., &all, ...)` then `exit(EXIT_SUCCESS)`). -/
inductive CollectorResult
  | done (all : List Outcome)
  | exited (summaryOver : List Outcome) (exitCode : Nat)
deriving DecidableEq, Repr

/-- POSIX EXIT_SUCCESS, the code passed to `std::process::exit` in
main.rs line 247. -/
def exitSuccess : Nat := 0

/-- Embedding of the collector loop of main.rs lines 234-251 over a
trace of observed events: a report is pushed onto `all`; a closed
channel breaks the loop returning `all`; ctrl-c prints a summary over
`all` and exits the process with EXIT_SUCCESS, ignoring everything that
would come after. An exhausted trace stands for a loop still waiting. -/
def collect (all : List Outcome) : List Event → CollectorResult
  | [] => .done all
  | .report o :: rest => collect (all ++ [o]) rest
  | .closed :: _ => .done all
  | .ctrlc :: _ => .exited all exitSuccess

/-! ## Summary reporter (spec section 4.6; printer::print_summary) -/

/-- Division that reports `none` instead of dividing by zero. -/
def safeDiv (a b : Nat) : Option Nat :=
  if b = 0 then none else some (a / b)

/-- Modelled from the spec: the final summary record computed by
`printer::print_summary` (not in this snapshot): total attempted,
success/failure counts, achieved throughput, and the latency
distribution of the successes (spec section 4.6). Latency statistics are
`none` when there is no value to report. -/
structure Summary where
  total : Nat
  nSuccess : Nat
  nFailure : Nat
  throughput : Option Nat
  latMin : Option Nat
  latMax : Option Nat
  latMean : Option Nat
  p50 : Option Nat
  p90 : Option Nat
  p95 : Option Nat
  p99 : Option Nat
deriving DecidableEq, Repr

/-- Inserts a value into an ascending list, keeping it ascending. -/
def insertSorted (x : Nat) : List Nat → List Nat
  | [] => [x]
  | y :: ys => if x ≤ y then x :: y :: ys else y :: insertSorted x ys

/-- Insertion sort into ascending order. -/
def sortNat (l : List Nat) : List Nat := l.foldr insertSorted []

/-- The sorted success latencies of an outcome set. -/
def successLats (os : List Outcome) : List Nat :=
  sortNat ((os.filter Outcome.isSuccess).map Outcome.duration)

/-- The p-th percentile of an ascending latency list: `none` on the
empty list. -/
def percentile (lats : List Nat) (p : Nat) : Option Nat :=
  lats.get? (p * lats.length / 100)

/-- Modelled from the spec: the summary computation of spec section 4.6
over the complete outcome set and total wall-clock duration. Every
division is guarded, so zero outcomes (or a zero elapsed time) report
zero counts and absent statistics rather than failing. -/
def summarize (os : List Outcome) (elapsed : Nat) : Summary :=
  let lats := successLats os
  { total := os.length
    nSuccess := (os.filter Outcome.isSuccess).length
    nFailure := (os.filter (fun o => !o.isSuccess)).length
    throughput := safeDiv os.length elapsed
    latMin := lats.head?
    latMax := lats.getLast?
    latMean := safeDiv lats.sum lats.length
    p50 := percentile lats 50
    p90 := percentile lats 90
    p95 := percentile lats 95
    p99 := percentile lats 99 }

/-! ## The setup pipeline of main (main.rs lines 107-325) -/

/-- The command-line options that feed the configuration steps the
claims are about (a projection of struct Opts, main.rs lines 24-104). -/
structure Opts where
  headers : List String
  basicAuth : Option String
  httpVersion : Option String
deriving Repr

/-- Embedding of the order of main: header assembly (lines 132-144),
basic-auth parsing (161-186) and HTTP-version parsing (205-216) all run,
and fail fatally, before the work functions are invoked (lines 300-325).
`runOutcomes` stands for the outcome stream the dispatched run would
produce; on any setup error it is never reached and no outcome exists. -/
def mainRun (o : Opts) (runOutcomes : List Outcome) :
    Except String (List Outcome) := do
  let _ ← parseHeaders o.headers
  let _ ← parseAuth o.basicAuth
  let _ ← parseVersionOpt o.httpVersion
  return runOutcomes

/-! ## Helper lemmas -/

/-- An Except value with a false isOk flag is an error. -/
theorem isOk_false_iff {α β : Type} (x : Except α β) :
    x.isOk = false ↔ ∃ e, x = Except.error e := by
  cases x <;> simp [Except.isOk, Except.toBool]

/-- The claim counter conserves budget: emitted plus remaining is
invariant under any number of claim attempts. -/
theorem runCount_budget (k : Nat) (s : CountState) :
    (runCount k s).emitted + (runCount k s).remaining =
      s.emitted + s.remaining := by
  induction k generalizing s with
  | zero => rfl
  | succ k ih =>
    simp only [runCount]
    rw [ih]
    unfold claimUnit
    split
    · simp only []
      omega
    · rfl

/-- A foldr of max is bounded when the base and every entry are. -/
theorem foldr_max_le (f : Attempt → Nat) (l : List Attempt)
    (base bound : Nat) (hb : base ≤ bound) (h : ∀ a ∈ l, f a ≤ bound) :
    l.foldr (fun a acc => max (f a) acc) base ≤ bound := by
  induction l with
  | nil => simpa using hb
  | cons a l ih =>
    simp only [List.foldr]
    exact max_le (h a (List.mem_cons_self a l))
      (ih fun b hb2 => h b (List.mem_cons_of_mem a hb2))

/-- Every entry is below a foldr of max over it. -/
theorem le_foldr_max (f : Attempt → Nat) (l : List Attempt) (base : Nat) :
    ∀ a ∈ l, f a ≤ l.foldr (fun a acc => max (f a) acc) base := by
  induction l with
  | nil => simp
  | cons b l ih =>
    intro a ha
    simp only [List.foldr]
    rcases List.mem_cons.mp ha with h | h
    · subst h
      exact le_max_left _ _
    · exact le_trans (ih a h) (le_max_right _ _)

/-- Claiming a pacing slot never moves the next eligible instant back. -/
theorem nextEligible_mono (p : Pacing) :
    nextEligible p ≤ nextEligible (claimSlot p).2 := by
  show p.start + p.next * p.period ≤ p.start + (p.next + 1) * p.period
  exact Nat.add_le_add_left (Nat.mul_le_mul_right _ (Nat.le_succ _)) _

/-- Advancing the schedule by one slot adds exactly one period. -/
theorem nextEligible_step (p : Pacing) :
    nextEligible (claimSlot p).2 = nextEligible p + p.period := by
  show p.start + (p.next + 1) * p.period = p.start + p.next * p.period + p.period
  ring

/-- Every instant handed out from a schedule is at least its current next
eligible instant. -/
theorem mem_claimSeq_lb (k : Nat) (p : Pacing) :
    ∀ x ∈ claimSeq p k, nextEligible p ≤ x := by
  induction k generalizing p with
  | zero => simp [claimSeq]
  | succ k ih =>
    intro x hx
    simp only [claimSeq] at hx
    rcases List.mem_cons.mp hx with h | h
    · subst h
      exact le_of_eq rfl
    · exact le_trans (nextEligible_mono p) (ih (claimSlot p).2 x h)

/-- With a positive period, successive claims hand out strictly
increasing instants. -/
theorem claimSeq_strict_mono (k : Nat) (p : Pacing) (hp : 1 ≤ p.period) :
    (claimSeq p k).Pairwise (fun a b => a < b) := by
  induction k generalizing p with
  | zero => simp [claimSeq]
  | succ k ih =>
    simp only [claimSeq]
    refine List.pairwise_cons.mpr ⟨?_, ih (claimSlot p).2 hp⟩
    intro x hx
    have h1 := mem_claimSeq_lb k (claimSlot p).2 x hx
    rw [nextEligible_step] at h1
    have h2 : (claimSlot p).1 = nextEligible p := rfl
    omega

/-- A single bad header argument makes the whole header collection
fail. -/
theorem parseHeaders_error_of_bad (ss : List String)
    (h : ∃ s ∈ ss, (parseHeaderArg s).isOk = false) :
    ∃ e, parseHeaders ss = Except.error e := by
  induction ss with
  | nil => simp at h
  | cons s rest ih =>
    rcases h with ⟨t, ht, hbad⟩
    cases hhead : parseHeaderArg s with
    | error e =>
      refine ⟨e, ?_⟩
      simp only [parseHeaders]
      rw [hhead]
      rfl
    | ok v =>
      rcases List.mem_cons.mp ht with rfl | hmem
      · rw [hhead] at hbad
        simp [Except.isOk, Except.toBool] at hbad
      · rcases ih ⟨t, hmem, hbad⟩ with ⟨e, he⟩
        refine ⟨e, ?_⟩
        simp only [parseHeaders]
        rw [hhead, he]
        rfl

/-- Receiving a run of reports appends them, in order, to the collected
outcomes. -/
theorem collect_reports (pre : List Outcome) (acc : List Outcome)
    (rest : List Event) :
    collect acc (pre.map Event.report ++ rest) = collect (acc ++ pre) rest := by
  induction pre generalizing acc with
  | nil => simp
  | cons o pre ih =>
    simp only [List.map_cons, List.cons_append, collect]
    have h := ih (acc ++ [o])
    simpa using h

/-- mainRun is the sequential composition of the three fallible setup
steps, short-circuiting at the first error. -/
theorem mainRun_eq (o : Opts) (os : List Outcome) :
    mainRun o os =
      match parseHeaders o.headers with
      | .error e => .error e
      | .ok _ =>
        match parseAuth o.basicAuth with
        | .error e => .error e
        | .ok _ =>
          match parseVersionOpt o.httpVersion with
          | .error e => .error e
          | .ok _ => .ok os := by
  unfold mainRun
  cases parseHeaders o.headers <;> cases parseAuth o.basicAuth <;>
    cases parseVersionOpt o.httpVersion <;> rfl

/-! ## Claim theorems -/

/-- Claim C1: in Count mode with unconstrained pacing, a run never emits
more outcomes than the initial budget N; a normally completed run (the
budget counter exhausted, which every terminating worker has observed)
emits exactly N outcomes; and each claim attempt emits exactly one
outcome when it dispatches and none when it fails. -/
theorem count_mode_exact_outcomes (n k : Nat) (s : CountState) :
    (runCount k (initCount n)).emitted ≤ n ∧
    ((runCount k (initCount n)).remaining = 0 →
      (runCount k (initCount n)).emitted = n) ∧
    (claimUnit s).1.emitted =
      s.emitted + (if (claimUnit s).2 = true then 1 else 0) := by
  have h := runCount_budget k (initCount n)
  have h2 : (initCount n).emitted = 0 := rfl
  have h3 : (initCount n).remaining = n := rfl
  rw [h2, h3] at h
  refine ⟨by omega, fun hz => by omega, ?_⟩
  unfold claimUnit
  split <;> simp

/-- Witness for C1 at N = 3 with 5 claim attempts. -/
theorem count_mode_exact_outcomes_witness :
    (runCount 5 (initCount 3)).emitted = 3 :=
  (count_mode_exact_outcomes 3 5 (initCount 3)).2.1 (by decide)

/-- Claim C2: on a ctrl-c event after any sequence of received reports,
the collector produces a summary over exactly the outcomes collected
before the signal and exits with the success status, independent of any
events that would follow (it does not wait for outstanding work). -/
theorem interrupt_prints_partial_and_exits (pre : List Outcome)
    (post : List Event) :
    collect [] (pre.map Event.report ++ Event.ctrlc :: post) =
      CollectorResult.exited pre exitSuccess ∧ exitSuccess = 0 := by
  constructor
  · rw [collect_reports]
    simp [collect]
  · rfl

/-- Claim C3: a supplied duration makes the run Deadline-governed with
deadline start + duration and the request count ignored; otherwise it is
Count-governed by n_requests; the QPS option independently selects the
rate-limited variant, so exactly one of the four work functions runs. -/
theorem one_stop_condition_governs (start d q n n2 : Nat)
    (qo : Option Nat) :
    (chooseWork start (some d) qo n).stop = StopCond.deadline (start + d) ∧
    (chooseWork start none qo n).stop = StopCond.count n ∧
    chooseWork start (some d) qo n = chooseWork start (some d) qo n2 ∧
    (chooseWork start (some d) (some q) n).fn = WorkFn.workUntilWithQps ∧
    (chooseWork start (some d) none n).fn = WorkFn.workUntil ∧
    (chooseWork start none (some q) n).fn = WorkFn.workWithQps ∧
    (chooseWork start none none n).fn = WorkFn.work := by
  cases qo <;> exact ⟨rfl, rfl, rfl, rfl, rfl, rfl, rfl⟩

/-- Claim C4: in Deadline mode every dispatched request started strictly
before the deadline, every attempt ready strictly before the deadline is
admitted, every dispatched request is allowed to finish, and the run
ends no later than the deadline plus the slowest single-request
duration. -/
theorem deadline_mode_bounds (D S : Nat) (attempts : List Attempt)
    (hS : ∀ a ∈ attempts, a.dur ≤ S) :
    (∀ a ∈ dispatched D attempts, a.at_ < D) ∧
    (∀ a ∈ attempts, a.at_ < D → a ∈ dispatched D attempts) ∧
    (∀ a ∈ dispatched D attempts, finishAt a ≤ runEndTime D attempts) ∧
    runEndTime D attempts ≤ D + S := by
  have hmem : ∀ a, a ∈ dispatched D attempts ↔ a ∈ attempts ∧ a.at_ < D := by
    intro a
    simp [dispatched, mayDispatch, List.mem_filter]
  refine ⟨fun a ha => ((hmem a).mp ha).2,
    fun a ha h2 => (hmem a).mpr ⟨ha, h2⟩, ?_, ?_⟩
  · intro a ha
    exact le_foldr_max finishAt _ D a ha
  · refine foldr_max_le finishAt _ D (D + S) (Nat.le_add_right _ _) ?_
    intro a ha
    have h1 := ((hmem a).mp ha).2
    have h2 := hS a ((hmem a).mp ha).1
    unfold finishAt
    omega

/-- Witness for C4 with deadline 10 and slowest duration 4. -/
theorem deadline_mode_bounds_witness :
    runEndTime 10 [⟨3, 2⟩, ⟨12, 1⟩, ⟨9, 4⟩] ≤ 10 + 4 :=
  (deadline_mode_bounds 10 4 [⟨3, 2⟩, ⟨12, 1⟩, ⟨9, 4⟩] (by decide)).2.2.2

/-- Claim C5: with a positive pacing period, any number of serialised
slot claims hand out pairwise distinct instants, and claiming a slot
never moves the schedule's next eligible instant backwards. -/
theorem pacing_slots_distinct (p : Pacing) (k : Nat) (hp : 1 ≤ p.period) :
    (claimSeq p k).Nodup ∧
    nextEligible p ≤ nextEligible (claimSlot p).2 := by
  exact ⟨(claimSeq_strict_mono k p hp).imp (fun h => Nat.ne_of_lt h),
    nextEligible_mono p⟩

/-- Witness for C5: three claims at period 5 are pairwise distinct. -/
theorem pacing_slots_distinct_witness :
    (claimSeq ⟨0, 5, 0⟩ 3).Nodup :=
  (pacing_slots_distinct ⟨0, 5, 0⟩ 3 (by decide)).1

/-- Claim C6: the summary of an empty outcome set reports zero counts
and no latency statistics, and every division is guarded so nothing
fails (throughput is likewise absent rather than a division by zero when
the elapsed time is zero). -/
theorem summary_empty_outcomes (elapsed : Nat) :
    summarize [] elapsed =
      { total := 0, nSuccess := 0, nFailure := 0,
        throughput := if elapsed = 0 then none else some 0,
        latMin := none, latMax := none, latMean := none,
        p50 := none, p90 := none, p95 := none, p99 := none } := by
  simp [summarize, successLats, sortNat, safeDiv, percentile]

/-- Claim C7: a worker run publishes exactly one outcome per attempt, in
place, with a failing attempt recorded as a classified failure outcome
exactly once — the executor is total, so a failure never aborts the run
and is never retried. -/
theorem failure_recorded_once_never_fatal
    (attempts : List (Nat × NetBehavior)) (i d : Nat) (k : FailKind) :
    (workerRun attempts).length = attempts.length ∧
    (workerRun attempts)[i]? =
      (attempts[i]?).map (fun a => execute a.1 a.2) ∧
    execute d (NetBehavior.fail k) = ⟨d, ReqResult.failure k⟩ ∧
    (execute d (NetBehavior.fail k)).isSuccess = false := by
  refine ⟨by simp [workerRun], ?_, rfl, rfl⟩
  simp [workerRun, List.getElem?_map]

/-- Claim C8: a header argument without a ": " separator, a basic-auth
argument without a ':' separator, or an unrecognised HTTP-version string
each make mainRun return a fatal error, so the run is never dispatched
and no outcome is produced. -/
theorem invalid_config_fatal (o : Opts) (os : List Outcome)
    (h : (∃ s ∈ o.headers, (parseHeaderArg s).isOk = false) ∨
        (∃ a, o.basicAuth = some a ∧ (parseAuthStr a).isOk = false) ∨
        (∃ v, o.httpVersion = some v ∧ (parseHttpVersion v).isOk = false)) :
    ∃ e, mainRun o os = Except.error e := by
  rcases h with h | h | h
  · rcases parseHeaders_error_of_bad o.headers h with ⟨e, he⟩
    exact ⟨e, by rw [mainRun_eq, he]⟩
  · rcases h with ⟨a, ha, hbad⟩
    rcases (isOk_false_iff _).mp hbad with ⟨e, he⟩
    have hA : parseAuth o.basicAuth = Except.error e := by
      rw [ha]
      simp only [parseAuth]
      rw [he]
      rfl
    cases hh : parseHeaders o.headers with
    | error e2 => exact ⟨e2, by rw [mainRun_eq, hh]⟩
    | ok l => exact ⟨e, by rw [mainRun_eq, hh, hA]⟩
  · rcases h with ⟨v, hv, hbad⟩
    rcases (isOk_false_iff _).mp hbad with ⟨e, he⟩
    have hV : parseVersionOpt o.httpVersion = Except.error e := by
      rw [hv]
      simp only [parseVersionOpt]
      rw [he]
      rfl
    cases hh : parseHeaders o.headers with
    | error e2 => exact ⟨e2, by rw [mainRun_eq, hh]⟩
    | ok l =>
      cases hA : parseAuth o.basicAuth with
      | error e2 => exact ⟨e2, by rw [mainRun_eq, hh, hA]⟩
      | ok u => exact ⟨e, by rw [mainRun_eq, hh, hA, hV]⟩

/-- Witness for C8: a header argument without ": " is fatal even though
a run result was available. -/
theorem invalid_config_fatal_witness :
    ∃ e, mainRun ⟨["bad"], none, none⟩ [⟨1, ReqResult.success 200 0⟩] =
      Except.error e :=
  invalid_config_fatal ⟨["bad"], none, none⟩ [⟨1, ReqResult.success 200 0⟩]
    (Or.inl ⟨"bad", by simp, by decide⟩)

/-- Claim C9: the --http-version option accepts exactly the seven
strings "0.9", "1.0", "1.1", "2", "2.0", "3", "3.0" with the documented
mapping (both "3" and "3.0" map to HTTP/3), and rejects every other
string with the "Unknown HTTP version" error. -/
theorem http_version_exact_strings (s : String) :
    (parseHttpVersion s).isOk = decide (s ∈ acceptedVersionStrings) ∧
    ((parseHttpVersion s).isOk = true ∨
      parseHttpVersion s = Except.error "Unknown HTTP version") ∧
    parseHttpVersion "0.9" = Except.ok HttpVersion.http09 ∧
    parseHttpVersion "1.0" = Except.ok HttpVersion.http10 ∧
    parseHttpVersion "1.1" = Except.ok HttpVersion.http11 ∧
    parseHttpVersion "2" = Except.ok HttpVersion.http2 ∧
    parseHttpVersion "2.0" = Except.ok HttpVersion.http2 ∧
    parseHttpVersion "3" = Except.ok HttpVersion.http3 ∧
    parseHttpVersion "3.0" = Except.ok HttpVersion.http3 := by
  refine ⟨?_, ?_, rfl, rfl, rfl, rfl, rfl, rfl, rfl⟩
  · unfold parseHttpVersion acceptedVersionStrings
    split_ifs with h1 h2 h3 h4 h5 <;>
      simp_all [Except.isOk, Except.toBool] <;> tauto
  · unfold parseHttpVersion
    split_ifs <;> simp [Except.isOk, Except.toBool]

/-- Claim C10: a body string takes precedence over a body file (the file
is not opened); a body file alone supplies its full contents; neither
option means no body. -/
theorem body_selection_precedence (s p : String) (po : Option String)
    (f : String → ByteSeq) :
    selectBody (some s) po f = (some (strBytes s), false) ∧
    selectBody none (some p) f = (some (f p), true) ∧
    selectBody none none f = (none, false) := by
  refine ⟨?_, rfl, rfl⟩
  cases po <;> rfl

end Oha
